import Mathlib

/-!
Verification development for the listening-history analyzer
(`analyze.py`, class `ListeningHistoryAnalyzer`).

The session table (`summary_df`, already filtered to the target year) is
embedded as a `List Session`.  Timestamps are split into the pieces the
code consumes: an absolute calendar-day index `day` (consecutive calendar
days differ by exactly 1, and `day % 7` is the weekday with 0 = Monday,
matching pandas `dt.dayofweek`), the hour of day `hour`, and the calendar
month number `month` (after the year filter all rows share one year, so
the year-month period is determined by the month number).  Float
arithmetic of the source is modelled with exact rationals; the float
literals `0.5`, `0.15`, `0.8` become the rationals `1/2`, `3/20`, `4/5`.
-/

set_option maxRecDepth 40000

attribute [local semireducible] Rat.mul Rat.add Rat.inv Rat.sub

structure Session where
  artistName : String
  showDate : String
  venue : String
  location : String
  recordingIdentifier : String
  sessionIdentifier : String
  day : ℕ
  hour : ℕ
  month : ℕ
  duration : ℚ
  percentListenedTo : ℚ
deriving DecidableEq

/-- Effective listening seconds of one session: `duration * percentListenedTo`. -/
def effectiveSeconds (s : Session) : ℚ := s.duration * s.percentListenedTo

/-- Sum of effective listening seconds over a list of sessions. -/
def sumEff (rows : List Session) : ℚ := (rows.map effectiveSeconds).sum

/-- Mathematical floor of a rational: floor division of the numerator by
the (positive) denominator. -/
def ratFloor (q : ℚ) : ℤ := Int.fdiv q.num (q.den : ℤ)

/-- Round to the nearest integer, ties to even — the rounding used by
Python's `round` (and by `f"{x:.0f}"` formatting). -/
def roundHalfEven (q : ℚ) : ℤ :=
  let f := ratFloor q
  if q - (f : ℚ) < 1/2 then f
  else if 1/2 < q - (f : ℚ) then f + 1
  else if Even f then f else f + 1

/-- Python `round(x, 2)`: round to two decimal places, ties to even. -/
def round2 (q : ℚ) : ℚ := (roundHalfEven (100 * q) : ℚ) / 100

/-- Python `f"{x:.0f}"` for the nonnegative values formatted by the code. -/
def fmt0 (q : ℚ) : String := toString (roundHalfEven q)

/-- Python `f"{x:.1f}"` for the nonnegative values formatted by the code. -/
def fmt1 (q : ℚ) : String :=
  toString (roundHalfEven (10 * q) / 10) ++ "." ++ toString (roundHalfEven (10 * q) % 10)

/-- Result record of `calculate_total_minutes`. -/
structure TotalStats where
  total_minutes : ℚ
  total_hours : ℚ
  total_days : ℚ
deriving DecidableEq

/-- `calculate_total_minutes`: total effective seconds, converted to
minutes/hours/days and rounded to two decimals (lines 48-59).  On the
empty table the pandas sum is 0, so the result is all zeros — the source
raises no error here. -/
def calculate_total_minutes (rows : List Session) : TotalStats :=
  let total_seconds := sumEff rows
  let total_minutes := total_seconds / 60
  let total_hours := total_minutes / 60
  ⟨round2 total_minutes, round2 total_hours, round2 (total_hours / 24)⟩

/-- `get_total_listening_time` is an alias for `calculate_total_minutes`. -/
def get_total_listening_time (rows : List Session) : TotalStats :=
  calculate_total_minutes rows

/-- Helper for `firstUniques`: walk the list keeping the elements not yet
seen, in encounter order. -/
def firstUniquesAux {α : Type} [DecidableEq α] : List α → List α → List α
  | [], _ => []
  | a :: rest, seen =>
    if a ∈ seen then firstUniquesAux rest seen
    else a :: firstUniquesAux rest (a :: seen)

/-- First-occurrence deduplication: the key order produced by pandas
hash-based counting (`value_counts`) before its final sort. -/
def firstUniques {α : Type} [DecidableEq α] (l : List α) : List α :=
  firstUniquesAux l []

/-- pandas `sort_values(key, ascending=False)` with the default kind:
an ascending argsort followed by reversal of the index
(`pandas.core.sorting.nargsort`).  The ascending sort is modelled as the
stable `List.insertionSort`. -/
def sortDescBy {α : Type} (f : α → ℚ) (l : List α) : List α :=
  (l.insertionSort (fun a b => f a ≤ f b)).reverse

/-- pandas `value_counts`: count by first-encounter key order, then sort
descending by count (ascending stable sort, reversed). -/
def valueCounts {α : Type} [DecidableEq α] (l : List α) : List (α × ℕ) :=
  (((firstUniques l).map (fun a => (a, (l.filter (fun b => decide (b = a))).length))).insertionSort
    (fun x y => x.2 ≤ y.2)).reverse

/-- Sorted list of the distinct artist names: the group keys of
`groupby('artistName')` (pandas sorts group keys ascending). -/
def artistKeys (rows : List Session) : List String :=
  ((rows.map (fun s => s.artistName)).dedup).insertionSort (fun a b => a.data ≤ b.data)

/-- One row of the `get_top_artists` result. -/
structure ArtistRow where
  artistName : String
  total_seconds : ℚ
  session_count : ℕ
  total_minutes : ℚ
  total_hours : ℚ
deriving DecidableEq

/-- The aggregate row of one artist group (effective-second sum and
session count, plus the derived minute/hour columns). -/
def artistAgg (rows : List Session) (a : String) : ArtistRow :=
  let grp := rows.filter (fun s => decide (s.artistName = a))
  ⟨a, sumEff grp, grp.length, sumEff grp / 60, sumEff grp / 3600⟩

/-- `get_top_artists(n)` (lines 65-77): group by artist name, sort
descending by summed effective seconds, keep the first `n` rows. -/
def get_top_artists (rows : List Session) (n : ℕ) : List ArtistRow :=
  (sortDescBy (fun r => r.total_seconds) ((artistKeys rows).map (artistAgg rows))).take n

/-- The fixed Monday-first weekday name order used by the code. -/
def day_order : List String :=
  ["Monday", "Tuesday", "Wednesday", "Thursday", "Friday", "Saturday", "Sunday"]

/-- `dt.day_name()`: weekday name of an absolute day index (0 = Monday). -/
def dayName (d : ℕ) : String := day_order.getD (d % 7) ""

/-- One row of the `get_listening_by_day` result. -/
structure DayRow where
  day : String
  total_seconds : ℚ
  session_count : ℕ
  total_minutes : ℚ
deriving DecidableEq

/-- The aggregate row of one weekday group. -/
def dayAgg (rows : List Session) (dn : String) : DayRow :=
  let grp := rows.filter (fun s => decide (dayName s.day = dn))
  ⟨dn, sumEff grp, grp.length, sumEff grp / 60⟩

/-- `get_listening_by_day` (lines 79-97): group by weekday name and order
the groups Monday→Sunday via the categorical sort.  `groupby` produces a
row only for weekday names that actually occur, so absent weekdays yield
no row. -/
def get_listening_by_day (rows : List Session) : List DayRow :=
  (day_order.filter (fun dn => rows.any (fun s => decide (dayName s.day = dn)))).map
    (dayAgg rows)

/-- Sorted list of the distinct session dates (`sorted(df['date'].unique())`). -/
def distinctDates (rows : List Session) : List ℕ :=
  ((rows.map (fun s => s.day)).dedup).insertionSort (· ≤ ·)

/-- One row of the `get_top_listening_days` result. -/
structure DateRow where
  date : ℕ
  total_seconds : ℚ
  session_count : ℕ
  total_minutes : ℚ
  total_hours : ℚ
deriving DecidableEq

/-- The aggregate row of one calendar-date group. -/
def dateAgg (rows : List Session) (d : ℕ) : DateRow :=
  let grp := rows.filter (fun s => decide (s.day = d))
  ⟨d, sumEff grp, grp.length, sumEff grp / 60, sumEff grp / 3600⟩

/-- `get_top_listening_days(n)` (lines 99-114). -/
def get_top_listening_days (rows : List Session) (n : ℕ) : List DateRow :=
  (sortDescBy (fun r => r.total_seconds) ((distinctDates rows).map (dateAgg rows))).take n

/-- Sorted list of the distinct months (the `year_month` group keys; all
rows share the target year, so the month number determines the period). -/
def monthKeys (rows : List Session) : List ℕ :=
  ((rows.map (fun s => s.month)).dedup).insertionSort (· ≤ ·)

/-- One row of the `get_listening_by_month` result. -/
structure MonthRow where
  month : ℕ
  total_seconds : ℚ
  session_count : ℕ
  total_minutes : ℚ
  total_hours : ℚ
deriving DecidableEq

/-- The aggregate row of one month group. -/
def monthAgg (rows : List Session) (m : ℕ) : MonthRow :=
  let grp := rows.filter (fun s => decide (s.month = m))
  ⟨m, sumEff grp, grp.length, sumEff grp / 60, sumEff grp / 3600⟩

/-- `get_listening_by_month` (lines 124-139): one row per observed month,
in chronological (group-key) order. -/
def get_listening_by_month (rows : List Session) : List MonthRow :=
  (monthKeys rows).map (monthAgg rows)

/-- The six-column group key of `get_top_shows` (`show_id` first, as in
the `groupby` list of line 149). -/
structure ShowKey where
  show_id : String
  artistName : String
  showDate : String
  venue : String
  location : String
  recordingIdentifier : String
deriving DecidableEq, Ord

/-- The group key derived from one session; `show_id` is the
concatenation built on lines 144-146. -/
def showKeyOf (s : Session) : ShowKey :=
  ⟨s.artistName ++ " - " ++ s.showDate ++ " @ " ++ s.venue,
   s.artistName, s.showDate, s.venue, s.location, s.recordingIdentifier⟩

/-- The distinct show keys in the lexicographic group-key order of
`groupby` (modelled with the derived `Ord`). -/
def showKeys (rows : List Session) : List ShowKey :=
  (firstUniques (rows.map showKeyOf)).insertionSort (fun a b => (compare a b).isLE = true)

/-- One row of the `get_top_shows` result. -/
structure ShowRow where
  show_id : String
  artist : String
  date : String
  venue : String
  location : String
  recording_id : String
  total_seconds : ℚ
  listen_count : ℕ
  total_minutes : ℚ
  total_hours : ℚ
deriving DecidableEq

/-- The aggregate row of one show group. -/
def showAgg (rows : List Session) (k : ShowKey) : ShowRow :=
  let grp := rows.filter (fun s => decide (showKeyOf s = k))
  ⟨k.show_id, k.artistName, k.showDate, k.venue, k.location, k.recordingIdentifier,
   sumEff grp, grp.length, sumEff grp / 60, sumEff grp / 3600⟩

/-- `get_top_shows(n)` (lines 141-159). -/
def get_top_shows (rows : List Session) (n : ℕ) : List ShowRow :=
  (sortDescBy (fun r => r.total_seconds) ((showKeys rows).map (showAgg rows))).take n

/-- Streak loop of `get_personalized_insights` (lines 169-176): running
over the remaining sorted dates with the previous date, the current run
length and the maximum so far. -/
def maxStreakAux : ℕ → ℕ → ℕ → List ℕ → ℕ
  | _, _, mx, [] => mx
  | prev, cur, mx, d :: ds =>
    if d = prev + 1 then maxStreakAux d (cur + 1) (max mx (cur + 1)) ds
    else maxStreakAux d 1 mx ds

/-- Longest run of consecutive days over a sorted distinct date list,
computed exactly as the loop of lines 169-176 (`max_streak` and
`current_streak` both start at 1). -/
def maxStreak : List ℕ → ℕ
  | [] => 0
  | d :: ds => maxStreakAux d 1 1 ds

/-- Length of the consecutive chain continuing `prev` at the head of the
list: the number of leading elements forming `prev+1, prev+2, ...`. -/
def chainLen (prev : ℕ) : List ℕ → ℕ
  | [] => 0
  | d :: ds => if d = prev + 1 then chainLen d ds + 1 else 0

/-- The longest run of consecutive values starting at any position of
the list: a declarative reference point for `maxStreak`. -/
def bestTail : List ℕ → ℕ
  | [] => 0
  | d :: ds => max (chainLen d ds + 1) (bestTail ds)

/-- Rule 1 (lines 165-178): listening streak.  The loop only runs when
there are at least two distinct dates; it emits only when the maximum
run exceeds 2. -/
def streakInsight (rows : List Session) : Option String :=
  let dates := distinctDates rows
  if 1 < dates.length then
    let m := maxStreak dates
    if 2 < m then some (toString m ++ "-day listening streak") else none
  else none

/-- Rule 2 (lines 180-192): favorite hour of day, the mode of the session
start hours, bucketed into four labels. -/
def favoriteHourInsight (rows : List Session) : Option String :=
  match valueCounts (rows.map (fun s => s.hour)) with
  | [] => none
  | (h, _) :: _ =>
    if 5 ≤ h ∧ h < 12 then some ("Morning listener (peak at " ++ toString h ++ ":00)")
    else if 12 ≤ h ∧ h < 17 then some ("Afternoon vibes (peak at " ++ toString h ++ ":00)")
    else if 17 ≤ h ∧ h < 21 then some ("Evening sessions (peak at " ++ toString h ++ ":00)")
    else some ("Night owl (peak at " ++ toString h ++ ":00)")

/-- Number of weekend sessions (`dt.dayofweek >= 5`, line 195). -/
def weekendCount (rows : List Session) : ℕ :=
  (rows.filter (fun s => decide (5 ≤ s.day % 7))).length

/-- Weekend percentage of line 196 as a rational.  For a non-empty table
this is the value the source computes; the empty case is covered by
`weekendPctQ`. -/
def weekendPct (rows : List Session) : ℚ :=
  ((weekendCount rows : ℚ) / (rows.length : ℚ)) * 100

/-- Weekend percentage with the empty table made explicit: on zero rows
line 196 divides zero by zero, which is not a number (`NaN` under numpy
division, `ZeroDivisionError` under plain integer division); `none`
models that undefined outcome. -/
def weekendPctQ (rows : List Session) : Option ℚ :=
  if rows.length = 0 then none else some (weekendPct rows)

/-- Rule 3 (lines 194-200): weekend-versus-weekday share. -/
def weekendInsight (rows : List Session) : Option String :=
  if weekendPct rows > 60 then
    some ("Weekend warrior - " ++ fmt0 (weekendPct rows) ++ "% on Sat/Sun")
  else if weekendPct rows < 30 then
    some ("Weekday listener - " ++ fmt0 (100 - weekendPct rows) ++ "% Mon-Fri")
  else none

/-- Distinct artist count (`nunique`, line 203). -/
def uniqueArtists (rows : List Session) : ℕ :=
  (rows.map (fun s => s.artistName)).toFinset.card

/-- Diversity ratio of line 205: distinct artists over total sessions.
The source divides two Python ints, so on the empty table it raises
`ZeroDivisionError`; consumers of this definition assume a non-empty
table (rational division by zero yields the junk value 0). -/
def diversityFrac (rows : List Session) : ℚ :=
  (uniqueArtists rows : ℚ) / (rows.length : ℚ)

/-- The artist with the most sessions: `value_counts().index[0]`
(lines 209 and 268 compute the same expression). -/
def topArtist (rows : List Session) : String :=
  ((valueCounts (rows.map (fun s => s.artistName))).headD ("", 0)).1

/-- Session count of one artist (the quantity `value_counts` ranks by). -/
def countArtist (rows : List Session) (a : String) : ℕ :=
  (rows.filter (fun s => decide (s.artistName = a))).length

/-- Rule 4 (lines 202-210): artist diversity.  Above 1/2 the rule reports
eclectic taste; below 3/20 it reports the top artist. -/
def diversityInsight (rows : List Session) : Option String :=
  if diversityFrac rows > 1/2 then
    some ("Eclectic taste - " ++ toString (uniqueArtists rows) ++ " different artists")
  else if diversityFrac rows < 3/20 then
    some ("Superfan of " ++ topArtist rows)
  else none

/-- Effective listening hours of one calendar date (line 214). -/
def dailyHours (rows : List Session) (d : ℕ) : ℚ :=
  sumEff (rows.filter (fun s => decide (s.day = d))) / 3600

/-- Number of dates with more than four effective hours (line 215). -/
def marathonDays (rows : List Session) : ℕ :=
  ((distinctDates rows).filter (fun d => decide (dailyHours rows d > 4))).length

/-- Maximum of the per-date hour totals (`daily_time.max()`, line 217);
only consumed when at least one marathon day exists. -/
def maxDailyHours (rows : List Session) : ℚ :=
  ((distinctDates rows).map (dailyHours rows)).foldr max 0

/-- Rule 5 (lines 212-218): marathon listening days. -/
def marathonInsight (rows : List Session) : Option String :=
  if 0 < marathonDays rows then
    some (toString (marathonDays rows) ++ " marathon listening days (max "
      ++ fmt1 (maxDailyHours rows) ++ "h)")
  else none

/-- `dt.month_name()` of a month number. -/
def monthName : ℕ → String
  | 1 => "January"
  | 2 => "February"
  | 3 => "March"
  | 4 => "April"
  | 5 => "May"
  | 6 => "June"
  | 7 => "July"
  | 8 => "August"
  | 9 => "September"
  | 10 => "October"
  | 11 => "November"
  | 12 => "December"
  | _ => ""

/-- Rule 6 (lines 220-225): peak listening month, the mode of the month
names. -/
def peakMonthInsight (rows : List Session) : Option String :=
  match valueCounts (rows.map (fun s => monthName s.month)) with
  | [] => none
  | (m, _) :: _ => some ("Peak listening month: " ++ m)

/-- Distinct venue count (line 229). -/
def uniqueVenues (rows : List Session) : ℕ :=
  (rows.map (fun s => s.venue)).toFinset.card

/-- Most frequent venue (line 233). -/
def favVenue (rows : List Session) : String :=
  ((valueCounts (rows.map (fun s => s.venue))).headD ("", 0)).1

/-- Rule 7 (lines 227-234): venue variety.  The `'venue' in columns`
check of line 228 always succeeds in this embedding, where every session
carries a venue. -/
def venueInsight (rows : List Session) : Option String :=
  if 20 < uniqueVenues rows then
    some ("Concert explorer - " ++ toString (uniqueVenues rows) ++ " different venues")
  else if uniqueVenues rows < 5 then some ("Loyal to " ++ favVenue rows)
  else none

/-- Mean of the session start hours. -/
def hourMean (rows : List Session) : ℚ :=
  ((rows.map (fun s => (s.hour : ℚ))).sum) / (rows.length : ℚ)

/-- Sample variance (`ddof = 1`, as in pandas `.std()` squared) of the
session start hours. -/
def hourSampleVar (rows : List Session) : ℚ :=
  ((rows.map (fun s => ((s.hour : ℚ) - hourMean rows) ^ 2)).sum) / ((rows.length : ℚ) - 1)

/-- Rule 8 (lines 236-242): schedule consistency.  The source compares
the sample standard deviation with 3 and 6; since the variance is
nonnegative, `std < 3` is `var < 9` and `std > 6` is `var > 36`.  With
fewer than two sessions the sample standard deviation is `NaN` and both
comparisons are false, so nothing is emitted. -/
def scheduleInsight (rows : List Session) : Option String :=
  if rows.length = 0 then none
  else if rows.length < 2 then none
  else if hourSampleVar rows < 9 then
    some "Creature of habit - consistent listening schedule"
  else if 36 < hourSampleVar rows then some "Free spirit - listening at all hours"
  else none

/-- The midpoint date `dates[len(dates)//2]` of line 246. -/
def midDate (rows : List Session) : ℕ :=
  (distinctDates rows).getD ((distinctDates rows).length / 2) 0

/-- Artists of the sessions strictly before the midpoint date (line 246). -/
def firstHalfArtists (rows : List Session) : Finset String :=
  ((rows.filter (fun s => decide (s.day < midDate rows))).map (fun s => s.artistName)).toFinset

/-- Artists of the sessions on or after the midpoint date (line 247). -/
def secondHalfArtists (rows : List Session) : Finset String :=
  ((rows.filter (fun s => decide (midDate rows ≤ s.day))).map (fun s => s.artistName)).toFinset

/-- Count of artists in the second half that are absent from the first
half (line 248). -/
def newArtistsCount (rows : List Session) : ℕ :=
  (secondHalfArtists rows \ firstHalfArtists rows).card

/-- Rule 9 (lines 244-250): discovery rate.  The guard of line 245 is
`len(dates) > 30`, so the rule runs only with at least 31 distinct dates. -/
def discoveryInsight (rows : List Session) : Option String :=
  if 30 < (distinctDates rows).length then
    if 5 < newArtistsCount rows then
      some ("Explorer mode - discovered " ++ toString (newArtistsCount rows) ++ " new artists")
    else none
  else none

/-- Number of sessions with completion above 4/5 (line 254). -/
def highCompletion (rows : List Session) : ℕ :=
  (rows.filter (fun s => decide (s.percentListenedTo > 4/5))).length

/-- Completion percentage of line 255; consumers assume a non-empty
table (the source would divide by zero otherwise). -/
def completionPct (rows : List Session) : ℚ :=
  ((highCompletion rows : ℚ) / (rows.length : ℚ)) * 100

/-- Rule 10 (lines 252-259): completion style. -/
def completionInsight (rows : List Session) : Option String :=
  if completionPct rows > 75 then
    some ("Completionist - " ++ fmt0 (completionPct rows) ++ "% shows heard fully")
  else if completionPct rows < 25 then
    some ("Sampler - explores " ++ fmt0 (100 - completionPct rows) ++ "% partial shows")
  else none

/-- The maximum raw session duration (`duration.max()`, line 262);
`none` on the empty table, where pandas yields `NaN`. -/
def maxDuration (rows : List Session) : Option ℚ :=
  (rows.map (fun s => s.duration)).max?

/-- Rule 11 (lines 261-264): longest single session, emitted above 7200
seconds.  A `NaN` maximum compares false, hence `none` on empty. -/
def longestInsight (rows : List Session) : Option String :=
  match maxDuration rows with
  | none => none
  | some mx =>
    if 7200 < mx then some ("Epic session - " ++ fmt1 (mx / 3600) ++ "h longest show")
    else none

/-- Distinct `(showDate, venue)` pairs of the top artist (line 270). -/
def topArtistShowPairs (rows : List Session) : ℕ :=
  ((rows.filter (fun s => decide (s.artistName = topArtist rows))).map
    (fun s => (s.showDate, s.venue))).toFinset.card

/-- Rule 12 (lines 266-272): deep dive on the superfan artist.  The guard
recomputes the same diversity ratio as rule 4 and the same
`value_counts().index[0]` top artist. -/
def deepDiveInsight (rows : List Session) : Option String :=
  if diversityFrac rows < 3/20 then
    if 10 < topArtistShowPairs rows then
      some ("Deep dive - " ++ toString (topArtistShowPairs rows) ++ " different "
        ++ topArtist rows ++ " shows")
    else none
  else none

/-- `get_personalized_insights` (lines 161-274): the twelve rules in
source order, each contributing at most one string.  On the empty table
the source aborts with `ZeroDivisionError` while computing the weekend
percentage or the diversity ratio; `none` models that failure. -/
def get_personalized_insights (rows : List Session) : Option (List String) :=
  if rows.isEmpty then none
  else
    some (List.reduceOption
      [streakInsight rows, favoriteHourInsight rows, weekendInsight rows,
       diversityInsight rows, marathonInsight rows, peakMonthInsight rows,
       venueInsight rows, scheduleInsight rows, discoveryInsight rows,
       completionInsight rows, longestInsight rows, deepDiveInsight rows])

/-- The derived helper columns the queries write onto the shared
dataframe. -/
inductive ExtraCol where
  | day_of_week
  | listening_time
  | date
  | year_month
  | show_id
deriving DecidableEq

/-- The shared dataframe object: the session rows plus the derived
columns added so far.  The value of each derived column is determined by
the rows, so tracking the column names captures the mutation. -/
structure DFState where
  rows : List Session
  extra : List ExtraCol
deriving DecidableEq

/-- Column assignment `df[c] = ...`: a new column is appended, an
existing one is overwritten in place. -/
def addCol (c : ExtraCol) (st : DFState) : DFState :=
  if c ∈ st.extra then st else ⟨st.rows, st.extra ++ [c]⟩

/-- `calculate_total_minutes` with the shared dataframe made explicit:
it assigns no columns. -/
def calculate_total_minutes_st (st : DFState) : TotalStats × DFState :=
  (calculate_total_minutes st.rows, st)

/-- `get_top_artists` with the shared dataframe made explicit: it
assigns no columns. -/
def get_top_artists_st (n : ℕ) (st : DFState) : List ArtistRow × DFState :=
  (get_top_artists st.rows n, st)

/-- `get_listening_by_day` with the shared dataframe made explicit:
lines 81-82 assign `day_of_week` and `listening_time`. -/
def get_listening_by_day_st (st : DFState) : List DayRow × DFState :=
  (get_listening_by_day st.rows, addCol .listening_time (addCol .day_of_week st))

/-- `get_top_listening_days` with the shared dataframe made explicit:
lines 101-102 assign `date` and `listening_time`. -/
def get_top_listening_days_st (n : ℕ) (st : DFState) : List DateRow × DFState :=
  (get_top_listening_days st.rows n, addCol .listening_time (addCol .date st))

/-- `get_listening_by_month` with the shared dataframe made explicit:
lines 126-127 assign `year_month` and `listening_time`. -/
def get_listening_by_month_st (st : DFState) : List MonthRow × DFState :=
  (get_listening_by_month st.rows, addCol .listening_time (addCol .year_month st))

/-- `get_top_shows` with the shared dataframe made explicit: lines
144-147 assign `show_id` and `listening_time`. -/
def get_top_shows_st (n : ℕ) (st : DFState) : List ShowRow × DFState :=
  (get_top_shows st.rows n, addCol .listening_time (addCol .show_id st))

/-- Example session with the fields the insight rules read; show date and
venue are fixed. -/
def mkS (a : String) (d h m : ℕ) (dur pct : ℚ) : Session :=
  ⟨a, "sd", "v", "loc", "rid", "sid", d, h, m, dur, pct⟩

/-- Example session with an explicit show date and venue. -/
def mkShow (a sd v : String) (d : ℕ) : Session :=
  ⟨a, sd, v, "loc", "rid", "sid", d, 12, 1, 100, 1⟩

/-- Sessions on the days 2025-01-01, 01-02, 01-03 and 01-10 (absolute day
indices 0, 1, 2 and 9). -/
def exStreak : List Session :=
  [mkS "a" 0 10 1 100 1, mkS "a" 1 10 1 100 1, mkS "a" 2 10 1 100 1, mkS "a" 9 10 1 100 1]

/-- Sessions with no two consecutive days. -/
def exGap : List Session :=
  [mkS "a" 0 10 1 100 1, mkS "a" 2 10 1 100 1, mkS "a" 4 10 1 100 1]

/-- 100 sessions across 60 distinct artists (the second 40 sessions reuse
the first 40 artist names). -/
def exEcl : List Session :=
  (List.range 60).map (fun i => mkS ("a" ++ toString i) i 10 1 100 1)
    ++ (List.range 40).map (fun i => mkS ("a" ++ toString i) i 10 1 100 1)

/-- 100 sessions over 5 distinct artists; artist `x` holds 40 of them. -/
def exSuper : List Session :=
  List.replicate 40 (mkS "x" 0 10 1 100 1) ++ List.replicate 15 (mkS "b" 1 10 1 100 1)
    ++ List.replicate 15 (mkS "c" 2 10 1 100 1) ++ List.replicate 15 (mkS "d" 3 10 1 100 1)
    ++ List.replicate 15 (mkS "e" 4 10 1 100 1)

/-- 20 sessions, 2 artists (ratio 1/10); the top artist `x` has 11
distinct (show date, venue) combinations. -/
def exDeep : List Session :=
  [mkS "y" 0 10 1 100 1]
    ++ (List.range 11).map (fun i => mkShow "x" ("d" ++ toString i) "v" (i + 1))
    ++ List.replicate 8 (mkShow "x" "d0" "v" 1)

/-- Exactly 30 distinct session dates (0..29); the second half introduces
the 6 artists `b`..`g`. -/
def ex30 : List Session :=
  (List.range 15).map (fun i => mkS "a" i 10 1 100 1)
    ++ [mkS "b" 15 10 1 100 1, mkS "c" 16 10 1 100 1, mkS "d" 17 10 1 100 1,
        mkS "e" 18 10 1 100 1, mkS "f" 19 10 1 100 1, mkS "g" 20 10 1 100 1]
    ++ (List.range 9).map (fun i => mkS "a" (21 + i) 10 1 100 1)

/-- 31 distinct session dates: `ex30` plus one more day. -/
def ex31 : List Session := ex30 ++ [mkS "a" 30 10 1 100 1]

/-- A single session of 100 seconds, fully listened, on a Monday. -/
def exOne : List Session := [mkS "a" 0 10 1 100 1]

/-- Two sessions with equal effective seconds: artist `a` encountered
first, artist `b` second. -/
def exTie : List Session := [mkS "a" 0 10 1 100 1, mkS "b" 1 10 1 100 1]

lemma maxStreak_of_short (ds : List ℕ) (h : ds.length ≤ 1) : maxStreak ds ≤ 1 := by
  match ds with
  | [] => simp [maxStreak]
  | [d] => simp [maxStreak, maxStreakAux]
  | d :: e :: tl => simp at h

lemma distinctDates_ne_nil (rows : List Session) (h : rows ≠ []) :
    distinctDates rows ≠ [] := by
  match rows with
  | [] => exact absurd rfl h
  | s :: rest =>
    have hmem : s.day ∈ distinctDates (s :: rest) := by
      unfold distinctDates
      rw [List.mem_insertionSort, List.mem_dedup]
      exact List.mem_map_of_mem _ (List.mem_cons_self s rest)
    exact List.ne_nil_of_mem hmem

lemma chainLen_prefix (prev : ℕ) (ds : List ℕ) :
    (List.range' (prev + 1) (chainLen prev ds)).IsPrefix ds := by
  induction ds generalizing prev with
  | nil => simp [chainLen]
  | cons d rest ih =>
    by_cases hd : d = prev + 1
    · rw [chainLen, if_pos hd, List.range'_succ]
      subst hd
      exact List.cons_prefix_cons.mpr ⟨rfl, ih (prev + 1)⟩
    · rw [chainLen, if_neg hd]
      simp

lemma chainLen_bound (prev : ℕ) (ds : List ℕ) (k : ℕ)
    (h : (List.range' (prev + 1) k).IsPrefix ds) : k ≤ chainLen prev ds := by
  induction ds generalizing prev k with
  | nil =>
    rw [List.prefix_nil] at h
    have := congrArg List.length h
    simp at this
    omega
  | cons d rest ih =>
    match k with
    | 0 => omega
    | k + 1 =>
      rw [List.range'_succ, List.cons_prefix_cons] at h
      obtain ⟨hda, hpre⟩ := h
      subst hda
      rw [chainLen, if_pos rfl]
      have := ih (prev + 1) k (by simpa using hpre)
      omega

lemma bestTail_infix (ds : List ℕ) (h : ds ≠ []) :
    ∃ a, (List.range' a (bestTail ds)).IsInfix ds := by
  induction ds with
  | nil => exact absurd rfl h
  | cons d rest ih =>
    rcases Nat.le_total (bestTail rest) (chainLen d rest + 1) with hle | hle
    · refine ⟨d, ?_⟩
      rw [bestTail, max_eq_left hle]
      refine List.IsPrefix.isInfix ?_
      rw [List.range'_succ]
      exact List.cons_prefix_cons.mpr ⟨rfl, chainLen_prefix d rest⟩
    · have hrest : rest ≠ [] := by
        intro he
        subst he
        simp [bestTail] at hle
      obtain ⟨a, ha⟩ := ih hrest
      refine ⟨a, ?_⟩
      rw [bestTail, max_eq_right hle]
      exact (List.infix_cons_iff).mpr (Or.inr ha)

lemma bestTail_bound (ds : List ℕ) (a k : ℕ)
    (h : (List.range' a k).IsInfix ds) : k ≤ bestTail ds := by
  induction ds generalizing a k with
  | nil =>
    rw [List.infix_nil] at h
    have := congrArg List.length h
    simp at this
    omega
  | cons d rest ih =>
    rcases (List.infix_cons_iff).mp h with hpre | hinf
    · match k with
      | 0 => omega
      | k + 1 =>
        rw [List.range'_succ, List.cons_prefix_cons] at hpre
        obtain ⟨hda, hpre⟩ := hpre
        subst hda
        have hk : k ≤ chainLen a rest := chainLen_bound a rest k (by simpa using hpre)
        rw [bestTail]
        omega
    · have := ih a k hinf
      rw [bestTail]
      omega

lemma maxStreakAux_eq (rest : List ℕ) : ∀ (prev cur mx : ℕ), 1 ≤ cur → cur ≤ mx →
    maxStreakAux prev cur mx rest
      = max mx (max (cur + chainLen prev rest) (bestTail rest)) := by
  induction rest with
  | nil =>
    intro prev cur mx h1 h2
    simp [maxStreakAux, chainLen, bestTail]
    omega
  | cons d ds ih =>
    intro prev cur mx h1 h2
    by_cases hd : d = prev + 1
    · rw [maxStreakAux, if_pos hd, ih d (cur + 1) (max mx (cur + 1)) (by omega) (by omega),
        chainLen, if_pos hd, bestTail]
      omega
    · rw [maxStreakAux, if_neg hd, ih d 1 mx (by omega) (by omega),
        chainLen, if_neg hd, bestTail]
      omega

lemma maxStreak_eq_bestTail (ds : List ℕ) (h : ds ≠ []) : maxStreak ds = bestTail ds := by
  match ds with
  | [] => exact absurd rfl h
  | d :: rest =>
    rw [maxStreak, maxStreakAux_eq rest d 1 1 le_rfl le_rfl, bestTail]
    omega

/-- C2: for every non-empty session table, the streak rule emits the
string built from the maximal consecutive-day run over the sorted
distinct dates exactly when that run exceeds 2 days; `maxStreak` is
exactly the length of the longest contiguous block of consecutive
integers (`List.range'` segment) occurring in the sorted distinct
date list. -/
theorem streak_insight_iff (rows : List Session) (h : rows ≠ []) :
    (∃ a, (List.range' a (maxStreak (distinctDates rows))).IsInfix (distinctDates rows))
    ∧ (∀ a k, (List.range' a k).IsInfix (distinctDates rows)
        → k ≤ maxStreak (distinctDates rows))
    ∧ (2 < maxStreak (distinctDates rows) →
      streakInsight rows
        = some (toString (maxStreak (distinctDates rows)) ++ "-day listening streak"))
    ∧ (maxStreak (distinctDates rows) ≤ 2 → streakInsight rows = none) := by
  have hne := distinctDates_ne_nil rows h
  have heq := maxStreak_eq_bestTail _ hne
  refine ⟨?_, ?_, ?_, ?_⟩
  · rw [heq]
    exact bestTail_infix _ hne
  · intro a k hk
    rw [heq]
    exact bestTail_bound _ a k hk
  · intro hm
    have h2 : 1 < (distinctDates rows).length := by
      by_contra hle
      push_neg at hle
      have := maxStreak_of_short (distinctDates rows) (by omega)
      omega
    simp only [streakInsight]
    rw [if_pos h2, if_pos hm]
  · intro hm
    simp only [streakInsight]
    split_ifs with h1 h2
    · omega
    · rfl
    · rfl

/-- C2 witness: the dictated examples — days {2025-01-01, 01-02, 01-03,
01-10} emit "3-day listening streak"; a table without two consecutive
days emits nothing. -/
theorem streak_insight_iff_witness :
    streakInsight exStreak = some "3-day listening streak"
      ∧ streakInsight exGap = none := by
  constructor
  · have h := (streak_insight_iff exStreak (by decide)).2.2.1
    have hm : maxStreak (distinctDates exStreak) = 3 := by decide
    rw [hm] at h
    exact (h (by norm_num)).trans (by decide)
  · exact (streak_insight_iff exGap (by decide)).2.2.2 (by decide)

/-- C4 counterexample: a table with exactly 30 distinct session dates and
6 newly discovered second-half artists, on which the discovery rule emits
nothing — the source guard is `len(dates) > 30`, not `>= 30`. -/
theorem discovery_insight_thirty_days :
    (distinctDates ex30).length = 30 ∧ 5 < newArtistsCount ex30
      ∧ discoveryInsight ex30 = none := by decide

/-- C4 amended: the discovery rule runs only with more than 30 (at least
31) distinct dates, and then emits exactly when more than 5 artists of
the second half are absent from the first half; with at most 30 distinct
dates it never emits. -/
theorem discovery_insight_iff (rows : List Session) :
    (30 < (distinctDates rows).length →
      (5 < newArtistsCount rows →
        discoveryInsight rows
          = some ("Explorer mode - discovered " ++ toString (newArtistsCount rows)
              ++ " new artists"))
      ∧ (newArtistsCount rows ≤ 5 → discoveryInsight rows = none))
    ∧ ((distinctDates rows).length ≤ 30 → discoveryInsight rows = none) := by
  constructor
  · intro h30
    constructor
    · intro h5
      simp only [discoveryInsight]
      rw [if_pos h30, if_pos h5]
    · intro h5
      simp only [discoveryInsight]
      rw [if_pos h30, if_neg (by omega)]
  · intro h30
    simp only [discoveryInsight]
    rw [if_neg (by omega)]

/-- C4 witness: with 31 distinct dates and 6 new second-half artists the
rule emits. -/
theorem discovery_insight_iff_witness :
    discoveryInsight ex31 = some "Explorer mode - discovered 6 new artists" := by
  have h := ((discovery_insight_iff ex31).1 (by decide)).1 (by decide)
  have hn : newArtistsCount ex31 = 6 := by decide
  rw [hn] at h
  exact h.trans (by decide)

/-- C10: on a table with exactly one session the schedule-consistency
rule emits nothing — the sample standard deviation of a single start
hour is `NaN`, so neither threshold branch fires. -/
theorem single_session_schedule_none (rows : List Session) (h : rows.length = 1) :
    scheduleInsight rows = none := by
  simp only [scheduleInsight, h]
  norm_num

/-- C10 witness: a concrete one-session table. -/
theorem single_session_schedule_none_witness : scheduleInsight exOne = none :=
  single_session_schedule_none exOne (by decide)

/-- C1 counterexample: on the empty session table `calculate_total_minutes`
returns the degenerate all-zero aggregate instead of raising, the weekend
percentage is an undefined 0/0, and `get_personalized_insights` fails
with a plain `ZeroDivisionError` — no `EmptyDatasetError` exists. -/
theorem empty_table_no_error :
    calculate_total_minutes [] = ⟨0, 0, 0⟩ ∧ weekendPctQ [] = none
      ∧ get_personalized_insights [] = none := by decide

/-- C1 amended: the code defines no `EmptyDatasetError`; on an empty
table the pure aggregation queries return zero or empty aggregates
without raising, while the insight computation aborts on a division by
zero (modelled by `none`). -/
theorem empty_table_behavior (n : ℕ) :
    calculate_total_minutes [] = ⟨0, 0, 0⟩
    ∧ get_top_artists [] n = []
    ∧ get_listening_by_day [] = []
    ∧ get_top_listening_days [] n = []
    ∧ get_listening_by_month [] = []
    ∧ get_top_shows [] n = []
    ∧ weekendPctQ [] = none
    ∧ get_personalized_insights [] = none := by
  refine ⟨by decide, ?_, by decide, ?_, by decide, ?_, by decide, by decide⟩
  · simp [get_top_artists, artistKeys, sortDescBy]
  · simp [get_top_listening_days, distinctDates, sortDescBy]
  · simp [get_top_shows, showKeys, firstUniques, firstUniquesAux, sortDescBy]

lemma half_lt_div_iff (u t : ℕ) (ht : 0 < t) :
    (1 : ℚ)/2 < (u : ℚ)/(t : ℚ) ↔ t < 2 * u := by
  have ht' : (0 : ℚ) < (t : ℚ) := by exact_mod_cast ht
  rw [div_lt_div_iff (by norm_num) ht']
  constructor
  · intro hq
    have : (t : ℚ) < 2 * (u : ℚ) := by linarith
    exact_mod_cast this
  · intro hn
    have : (t : ℚ) < 2 * (u : ℚ) := by exact_mod_cast hn
    linarith

lemma div_lt_threshold_iff (u t : ℕ) (ht : 0 < t) :
    (u : ℚ)/(t : ℚ) < 3/20 ↔ 20 * u < 3 * t := by
  have ht' : (0 : ℚ) < (t : ℚ) := by exact_mod_cast ht
  rw [div_lt_div_iff ht' (by norm_num)]
  constructor
  · intro hq
    have : 20 * (u : ℚ) < 3 * (t : ℚ) := by linarith
    exact_mod_cast this
  · intro hn
    have : 20 * (u : ℚ) < 3 * (t : ℚ) := by exact_mod_cast hn
    linarith

lemma mem_firstUniquesAux {α : Type} [DecidableEq α] (l : List α) :
    ∀ (seen : List α) (a : α), a ∈ l → a ∉ seen → a ∈ firstUniquesAux l seen := by
  induction l with
  | nil =>
    intro seen a h
    simp at h
  | cons b rest ih =>
    intro seen a hmem hns
    by_cases hb : b ∈ seen
    · rw [firstUniquesAux, if_pos hb]
      rcases List.mem_cons.mp hmem with rfl | hmem'
      · exact absurd hb hns
      · exact ih seen a hmem' hns
    · rw [firstUniquesAux, if_neg hb]
      by_cases hab : a = b
      · subst hab
        exact List.mem_cons_self _ _
      · rcases List.mem_cons.mp hmem with rfl | hmem'
        · exact absurd rfl hab
        · refine List.mem_cons_of_mem _ (ih (b :: seen) a hmem' ?_)
          rw [List.mem_cons]
          push_neg
          exact ⟨hab, hns⟩

lemma mem_firstUniques {α : Type} [DecidableEq α] (l : List α) (a : α) (h : a ∈ l) :
    a ∈ firstUniques l :=
  mem_firstUniquesAux l [] a h (by simp)

lemma valueCounts_snd_eq {α : Type} [DecidableEq α] (l : List α) (p : α × ℕ)
    (hp : p ∈ valueCounts l) :
    p.2 = (l.filter (fun b => decide (b = p.1))).length := by
  unfold valueCounts at hp
  rw [List.mem_reverse, List.mem_insertionSort] at hp
  obtain ⟨a, _, rfl⟩ := List.mem_map.mp hp
  rfl

lemma valueCounts_mem_of_mem {α : Type} [DecidableEq α] (l : List α) (a : α) (h : a ∈ l) :
    (a, (l.filter (fun b => decide (b = a))).length) ∈ valueCounts l := by
  unfold valueCounts
  rw [List.mem_reverse, List.mem_insertionSort]
  exact List.mem_map_of_mem _ (mem_firstUniques l a h)

lemma valueCounts_head_max {α : Type} [DecidableEq α] (l : List α) (dflt : α × ℕ)
    (p : α × ℕ) (hp : p ∈ valueCounts l) : p.2 ≤ ((valueCounts l).headD dflt).2 := by
  have hpw : (valueCounts l).Pairwise (fun x y : α × ℕ => y.2 ≤ x.2) := by
    unfold valueCounts
    rw [List.pairwise_reverse]
    haveI : IsTotal (α × ℕ) (fun x y : α × ℕ => x.2 ≤ y.2) := ⟨fun a b => le_total _ _⟩
    haveI : IsTrans (α × ℕ) (fun x y : α × ℕ => x.2 ≤ y.2) :=
      ⟨fun a b c hab hbc => le_trans hab hbc⟩
    exact List.sorted_insertionSort _ _
  match hvc : valueCounts l with
  | [] =>
    rw [hvc] at hp
    simp at hp
  | q :: t =>
    rw [hvc] at hp hpw
    rcases List.mem_cons.mp hp with rfl | hpt
    · simp
    · simpa using List.rel_of_pairwise_cons hpw hpt

lemma valueCounts_headD_mem {α : Type} [DecidableEq α] (l : List α) (dflt : α × ℕ)
    (hl : l ≠ []) : (valueCounts l).headD dflt ∈ valueCounts l := by
  match l, hl with
  | a :: rest, _ =>
    have hne : valueCounts (a :: rest) ≠ [] :=
      List.ne_nil_of_mem (valueCounts_mem_of_mem _ a (List.mem_cons_self _ _))
    match hvc : valueCounts (a :: rest) with
    | [] => exact absurd hvc hne
    | q :: t => simp

lemma countArtist_eq_names (rows : List Session) (a : String) :
    ((rows.map (fun s => s.artistName)).filter (fun b => decide (b = a))).length
      = countArtist rows a := by
  unfold countArtist
  induction rows with
  | nil => rfl
  | cons s rest ih =>
    simp only [List.map_cons, List.filter_cons]
    split <;> simp_all

lemma countArtist_le_top (rows : List Session) (h : rows ≠ []) :
    ∀ s ∈ rows, countArtist rows s.artistName ≤ countArtist rows (topArtist rows) := by
  intro s hs
  have hl : rows.map (fun s => s.artistName) ≠ [] := by
    intro he
    exact h (List.map_eq_nil.mp he)
  have hmem : s.artistName ∈ rows.map (fun s => s.artistName) :=
    List.mem_map_of_mem _ hs
  have h1 := valueCounts_head_max (rows.map (fun s => s.artistName)) ("", 0) _
    (valueCounts_mem_of_mem _ s.artistName hmem)
  have h2 := valueCounts_snd_eq (rows.map (fun s => s.artistName)) _
    (valueCounts_headD_mem _ ("", 0) hl)
  simp only at h1
  rw [countArtist_eq_names] at h1
  rw [h2, countArtist_eq_names] at h1
  exact h1

lemma diversity_superfan_of (rows : List Session) (h : rows ≠ [])
    (hc : 20 * uniqueArtists rows < 3 * rows.length) :
    diversityInsight rows = some ("Superfan of " ++ topArtist rows) := by
  have ht : 0 < rows.length := List.length_pos.mpr h
  have hlt := div_lt_threshold_iff (uniqueArtists rows) rows.length ht
  have hfrac : diversityFrac rows = (uniqueArtists rows : ℚ)/(rows.length : ℚ) := rfl
  have hl : diversityFrac rows < 3/20 := by rw [hfrac]; exact hlt.mpr hc
  simp only [diversityInsight]
  rw [if_neg (by rw [gt_iff_lt, hfrac]; rw [hfrac] at hl; intro hcon; linarith), if_pos hl]

/-- C3: for every non-empty session table the diversity rule emits the
eclectic string exactly when distinct artists / sessions exceeds 1/2
(that is, `sessions < 2 * artists`), emits the superfan string naming the
top artist by session count exactly when the ratio is below 3/20 (that
is, `20 * artists < 3 * sessions`), and otherwise emits nothing; the
named `topArtist` indeed has a maximal session count. -/
theorem diversity_insight_iff (rows : List Session) (h : rows ≠ []) :
    (rows.length < 2 * uniqueArtists rows →
      diversityInsight rows
        = some ("Eclectic taste - " ++ toString (uniqueArtists rows) ++ " different artists"))
    ∧ (20 * uniqueArtists rows < 3 * rows.length →
      diversityInsight rows = some ("Superfan of " ++ topArtist rows))
    ∧ (2 * uniqueArtists rows ≤ rows.length → 3 * rows.length ≤ 20 * uniqueArtists rows →
      diversityInsight rows = none)
    ∧ (∀ s ∈ rows, countArtist rows s.artistName ≤ countArtist rows (topArtist rows)) := by
  have ht : 0 < rows.length := List.length_pos.mpr h
  have hgt := half_lt_div_iff (uniqueArtists rows) rows.length ht
  have hlt := div_lt_threshold_iff (uniqueArtists rows) rows.length ht
  have hfrac : diversityFrac rows = (uniqueArtists rows : ℚ)/(rows.length : ℚ) := rfl
  refine ⟨?_, ?_, ?_, countArtist_le_top rows h⟩
  · intro hc
    simp only [diversityInsight]
    rw [if_pos (by rw [gt_iff_lt, hfrac]; exact hgt.mpr hc)]
  · exact diversity_superfan_of rows h
  · intro h1 h2
    simp only [diversityInsight]
    rw [if_neg (by rw [gt_iff_lt, hfrac]; intro hcon; exact absurd (hgt.mp hcon) (by omega)),
      if_neg (by rw [hfrac]; intro hcon; exact absurd (hlt.mp hcon) (by omega))]

/-- C3 witness: the dictated examples — 100 sessions across 60 artists
emit the eclectic string; 100 sessions over 5 artists with `x` holding
40 emit the superfan string. -/
theorem diversity_insight_iff_witness :
    diversityInsight exEcl = some "Eclectic taste - 60 different artists"
      ∧ diversityInsight exSuper = some "Superfan of x" := by
  constructor
  · have h := (diversity_insight_iff exEcl (by decide)).1 (by decide)
    have hu : uniqueArtists exEcl = 60 := by decide
    rw [hu] at h
    exact h.trans (by decide)
  · have h := (diversity_insight_iff exSuper (by decide)).2.1 (by decide)
    have hta : topArtist exSuper = "x" := by decide
    rw [hta] at h
    exact h.trans (by decide)

/-- C5: the deep-dive rule emits exactly when the diversity ratio is
below 3/20 (the same condition as rule 4's superfan branch) and the top
artist has more than 10 distinct (show date, venue) pairs, and both
rules name the same `topArtist`. -/
theorem deep_dive_insight_iff (rows : List Session) (h : rows ≠ []) :
    (20 * uniqueArtists rows < 3 * rows.length → 10 < topArtistShowPairs rows →
      deepDiveInsight rows
          = some ("Deep dive - " ++ toString (topArtistShowPairs rows) ++ " different "
              ++ topArtist rows ++ " shows")
        ∧ diversityInsight rows = some ("Superfan of " ++ topArtist rows))
    ∧ (3 * rows.length ≤ 20 * uniqueArtists rows → deepDiveInsight rows = none)
    ∧ (topArtistShowPairs rows ≤ 10 → deepDiveInsight rows = none) := by
  have ht : 0 < rows.length := List.length_pos.mpr h
  have hlt := div_lt_threshold_iff (uniqueArtists rows) rows.length ht
  have hfrac : diversityFrac rows = (uniqueArtists rows : ℚ)/(rows.length : ℚ) := rfl
  refine ⟨?_, ?_, ?_⟩
  · intro hc hshows
    have hl : diversityFrac rows < 3/20 := by rw [hfrac]; exact hlt.mpr hc
    constructor
    · simp only [deepDiveInsight]
      rw [if_pos hl, if_pos hshows]
    · exact diversity_superfan_of rows h hc
  · intro hc
    simp only [deepDiveInsight]
    rw [if_neg (by rw [hfrac]; intro hcon; exact absurd (hlt.mp hcon) (by omega))]
  · intro hc
    simp only [deepDiveInsight]
    split_ifs with h1 h2
    · omega
    · rfl
    · rfl

/-- C5 witness: 20 sessions with ratio 1/10 and 11 distinct show pairs
for the top artist `x` — both the superfan and the deep-dive strings
name `x`. -/
theorem deep_dive_insight_iff_witness :
    deepDiveInsight exDeep = some "Deep dive - 11 different x shows"
      ∧ diversityInsight exDeep = some "Superfan of x" := by
  have h := (deep_dive_insight_iff exDeep (by decide)).1 (by decide) (by decide)
  have hta : topArtist exDeep = "x" := by decide
  have hcount : topArtistShowPairs exDeep = 11 := by decide
  rw [hta, hcount] at h
  exact ⟨h.1.trans (by decide), h.2.trans (by decide)⟩

/-- C9 counterexample: one 100-second fully-listened session; the
returned `total_minutes` is the two-decimal rounding 1.67, not the exact
5/3 claimed by the specification. -/
theorem total_minutes_not_exact :
    (exOne.all (fun s => decide (0 ≤ s.percentListenedTo)
      && decide (s.percentListenedTo ≤ 1))) = true
    ∧ (calculate_total_minutes exOne).total_minutes = 167/100
    ∧ sumEff exOne / 60 = 5/3
    ∧ ((167 : ℚ)/100) ≠ 5/3 := by decide

/-- C9 amended: for sessions with completion in [0,1] the three returned
fields are the two-decimal roundings of sum/60, sum/3600 and sum/86400 —
hours and days are derived from the unrounded minute total. -/
theorem total_minutes_rounded (rows : List Session)
    (h : ∀ s ∈ rows, 0 ≤ s.percentListenedTo ∧ s.percentListenedTo ≤ 1) :
    calculate_total_minutes rows
      = ⟨round2 (sumEff rows / 60), round2 (sumEff rows / 3600),
          round2 (sumEff rows / 86400)⟩ := by
  simp only [calculate_total_minutes, TotalStats.mk.injEq, div_div]
  norm_num

/-- C9 witness: the amended statement at the concrete one-session table. -/
theorem total_minutes_rounded_witness :
    (∀ s ∈ exOne, 0 ≤ s.percentListenedTo ∧ s.percentListenedTo ≤ 1)
    ∧ calculate_total_minutes exOne
        = ⟨round2 (sumEff exOne / 60), round2 (sumEff exOne / 3600),
            round2 (sumEff exOne / 86400)⟩ :=
  ⟨by decide, total_minutes_rounded exOne (by decide)⟩

lemma dayName_mem (d : ℕ) : dayName d ∈ day_order := by
  have h7 : d % 7 < day_order.length := by
    simp only [day_order, List.length_cons, List.length_nil]
    omega
  unfold dayName
  rw [List.getD_eq_getElem _ _ h7]
  exact List.getElem_mem h7

/-- C6 counterexample: a table whose only session falls on a Monday
yields a one-row result, not the claimed seven zero-filled rows. -/
theorem day_of_week_single_row :
    (get_listening_by_day exOne).length = 1
      ∧ (get_listening_by_day exOne).length ≠ 7 := by decide

/-- C6 amended: `get_listening_by_day` returns one row per weekday that
has at least one session — in Monday→Sunday order and with the correct
totals — and omits weekdays without sessions, so the row count equals
the number of distinct weekday names present rather than always 7. -/
theorem day_of_week_rows (rows : List Session) :
    ((get_listening_by_day rows).map DayRow.day).Sublist day_order
    ∧ (get_listening_by_day rows).length
        = ((rows.map (fun s => dayName s.day)).toFinset).card
    ∧ ∀ r ∈ get_listening_by_day rows,
        0 < r.session_count
        ∧ r.total_seconds
            = sumEff (rows.filter (fun s => decide (dayName s.day = r.day)))
        ∧ r.session_count
            = (rows.filter (fun s => decide (dayName s.day = r.day))).length
        ∧ r.total_minutes = r.total_seconds / 60 := by
  refine ⟨?_, ?_, ?_⟩
  · have hmm : ((get_listening_by_day rows).map DayRow.day)
        = day_order.filter (fun dn => rows.any (fun s => decide (dayName s.day = dn))) := by
      simp only [get_listening_by_day, List.map_map]
      have hh : (DayRow.day ∘ dayAgg rows) = id := by
        funext dn; rfl
      rw [hh, List.map_id]
    rw [hmm]
    exact List.filter_sublist day_order
  · have hnodup : day_order.Nodup := by decide
    have hlen : (get_listening_by_day rows).length
        = (day_order.filter
            (fun dn => rows.any (fun s => decide (dayName s.day = dn)))).length := by
      simp [get_listening_by_day]
    have hfinset : (rows.map (fun s => dayName s.day)).toFinset
        = (day_order.filter
            (fun dn => rows.any (fun s => decide (dayName s.day = dn)))).toFinset := by
      ext dn
      simp only [List.mem_toFinset, List.mem_map, List.mem_filter, List.any_eq_true,
        decide_eq_true_eq]
      constructor
      · rintro ⟨s, hs, rfl⟩
        exact ⟨dayName_mem _, ⟨s, hs, rfl⟩⟩
      · rintro ⟨hmem, s, hs, hds⟩
        exact ⟨s, hs, hds⟩
    rw [hlen, hfinset,
      List.toFinset_card_of_nodup (hnodup.filter _)]
  · intro r hr
    simp only [get_listening_by_day, List.mem_map] at hr
    obtain ⟨dn, hdn, rfl⟩ := hr
    rw [List.mem_filter] at hdn
    obtain ⟨hdn_mem, hp⟩ := hdn
    rw [List.any_eq_true] at hp
    obtain ⟨s, hs, hds⟩ := hp
    rw [decide_eq_true_eq] at hds
    refine ⟨?_, rfl, rfl, rfl⟩
    have hsf : s ∈ rows.filter (fun s' => decide (dayName s'.day = dn)) := by
      rw [List.mem_filter]
      exact ⟨hs, by rw [decide_eq_true_eq]; exact hds⟩
    exact List.length_pos.mpr (List.ne_nil_of_mem hsf)

/-- C6 witness: the amended statement at a two-weekday table. -/
theorem day_of_week_rows_witness :
    ((get_listening_by_day exTie).map DayRow.day).Sublist day_order
    ∧ (get_listening_by_day exTie).length = 2
    ∧ 0 < (dayAgg exTie "Monday").session_count := by
  refine ⟨(day_of_week_rows exTie).1, ?_, ((day_of_week_rows exTie).2.2 _ ?_).1⟩
  · rw [(day_of_week_rows exTie).2.1]; decide
  · decide

lemma addCol_rows (c : ExtraCol) (st : DFState) : (addCol c st).rows = st.rows := by
  unfold addCol
  split <;> rfl

lemma addCol_sublist (c : ExtraCol) (st : DFState) :
    st.extra.Sublist (addCol c st).extra := by
  unfold addCol
  split
  · exact List.Sublist.refl _
  · exact List.sublist_append_left _ _

lemma addCol_subset (c : ExtraCol) (st : DFState) :
    (addCol c st).extra ⊆ st.extra ++ [c] := by
  unfold addCol
  split
  · exact fun x hx => List.mem_append_left _ hx
  · exact fun x hx => hx

lemma addCol_two_subset (c1 c2 : ExtraCol) (st : DFState) :
    (addCol c2 (addCol c1 st)).extra ⊆ st.extra ++ [c1, c2] := by
  intro x hx
  have h2 := addCol_subset c2 (addCol c1 st) hx
  rw [List.mem_append] at h2
  rcases h2 with h2 | h2
  · have h1 := addCol_subset c1 st h2
    rw [List.mem_append] at h1
    rcases h1 with h1 | h1
    · exact List.mem_append_left _ h1
    · rw [List.mem_singleton] at h1
      subst h1
      simp
  · rw [List.mem_singleton] at h2
    subst h2
    simp

lemma addCol_two_sublist (c1 c2 : ExtraCol) (st : DFState) :
    st.extra.Sublist (addCol c2 (addCol c1 st)).extra :=
  (addCol_sublist c1 st).trans (addCol_sublist c2 (addCol c1 st))

/-- C8 counterexample: `get_listening_by_day` mutates the shared
dataframe — on a table with no derived columns it adds `day_of_week`
and `listening_time`, so the state is not left unchanged. -/
theorem listening_by_day_mutates :
    (get_listening_by_day_st ⟨exOne, []⟩).2 ≠ (⟨exOne, []⟩ : DFState)
      ∧ (get_listening_by_day_st ⟨exOne, []⟩).2.extra
        = [ExtraCol.day_of_week, ExtraCol.listening_time] := by decide

/-- C8 amended: every query's value is a function of the session rows
alone, and no query changes the rows; `total_listening_time` and
`top_artists` leave the dataframe untouched, while the other four
queries append only their derived helper columns (`day_of_week`,
`date`, `year_month`, `show_id`, and `listening_time`). -/
theorem query_state_effects (st : DFState) (n : ℕ) :
    (calculate_total_minutes_st st).2 = st
    ∧ (get_top_artists_st n st).2 = st
    ∧ (calculate_total_minutes_st st).1 = calculate_total_minutes st.rows
    ∧ (get_top_artists_st n st).1 = get_top_artists st.rows n
    ∧ (get_listening_by_day_st st).1 = get_listening_by_day st.rows
    ∧ (get_top_listening_days_st n st).1 = get_top_listening_days st.rows n
    ∧ (get_listening_by_month_st st).1 = get_listening_by_month st.rows
    ∧ (get_top_shows_st n st).1 = get_top_shows st.rows n
    ∧ (get_listening_by_day_st st).2.rows = st.rows
    ∧ (get_top_listening_days_st n st).2.rows = st.rows
    ∧ (get_listening_by_month_st st).2.rows = st.rows
    ∧ (get_top_shows_st n st).2.rows = st.rows
    ∧ st.extra.Sublist (get_listening_by_day_st st).2.extra
    ∧ (get_listening_by_day_st st).2.extra
        ⊆ st.extra ++ [ExtraCol.day_of_week, ExtraCol.listening_time]
    ∧ st.extra.Sublist (get_top_listening_days_st n st).2.extra
    ∧ (get_top_listening_days_st n st).2.extra
        ⊆ st.extra ++ [ExtraCol.date, ExtraCol.listening_time]
    ∧ st.extra.Sublist (get_listening_by_month_st st).2.extra
    ∧ (get_listening_by_month_st st).2.extra
        ⊆ st.extra ++ [ExtraCol.year_month, ExtraCol.listening_time]
    ∧ st.extra.Sublist (get_top_shows_st n st).2.extra
    ∧ (get_top_shows_st n st).2.extra
        ⊆ st.extra ++ [ExtraCol.show_id, ExtraCol.listening_time] := by
  refine ⟨rfl, rfl, rfl, rfl, rfl, rfl, rfl, rfl, ?_, ?_, ?_, ?_, ?_, ?_, ?_, ?_, ?_, ?_, ?_, ?_⟩
  · exact (addCol_rows _ _).trans (addCol_rows _ _)
  · exact (addCol_rows _ _).trans (addCol_rows _ _)
  · exact (addCol_rows _ _).trans (addCol_rows _ _)
  · exact (addCol_rows _ _).trans (addCol_rows _ _)
  · exact addCol_two_sublist _ _ _
  · exact addCol_two_subset _ _ _
  · exact addCol_two_sublist _ _ _
  · exact addCol_two_subset _ _ _
  · exact addCol_two_sublist _ _ _
  · exact addCol_two_subset _ _ _
  · exact addCol_two_sublist _ _ _
  · exact addCol_two_subset _ _ _

/-- C8 witness: the purity of the total-time query at a concrete state. -/
theorem query_state_effects_witness :
    (calculate_total_minutes_st ⟨exOne, []⟩).2 = (⟨exOne, []⟩ : DFState) :=
  (query_state_effects ⟨exOne, []⟩ 0).1

lemma pair_sublist_antisymm {α : Type} {l : List α} {a b : α} (hn : l.Nodup)
    (h1 : [a, b].Sublist l) (h2 : [b, a].Sublist l) : a = b := by
  induction l with
  | nil => exact absurd (List.sublist_nil.mp h1) (by simp)
  | cons x xs ih =>
    rw [List.nodup_cons] at hn
    cases h1 with
    | cons _ h1' =>
      cases h2 with
      | cons _ h2' => exact ih hn.2 h1' h2'
      | cons₂ _ h2' =>
        exact absurd (h1'.subset (by simp)) hn.1
    | cons₂ _ h1' =>
      cases h2 with
      | cons _ h2' =>
        exact absurd (h2'.subset (by simp)) hn.1
      | cons₂ _ h2' => rfl

lemma sortDescBy_pairwise {α : Type} (f : α → ℚ) (G : α → α → Prop) (l : List α)
    (hg : l.Pairwise G) (hirr : ∀ x, ¬ G x x) :
    (sortDescBy f l).Pairwise (fun x y => f y < f x ∨ (f y = f x ∧ G y x)) := by
  have hnodup : l.Nodup := hg.imp (fun {a b} hab => by
    intro he
    exact hirr b (he ▸ hab))
  have hperm : (l.insertionSort (fun a b => f a ≤ f b)).Perm l := List.perm_insertionSort _ l
  have hnd' : (l.insertionSort (fun a b => f a ≤ f b)).Nodup := hperm.nodup_iff.mpr hnodup
  have hsorted : List.Pairwise (fun a b => f a ≤ f b)
      (l.insertionSort (fun a b => f a ≤ f b)) := by
    haveI : IsTotal α (fun a b => f a ≤ f b) := ⟨fun a b => le_total _ _⟩
    haveI : IsTrans α (fun a b => f a ≤ f b) := ⟨fun a b c hab hbc => le_trans hab hbc⟩
    exact List.sorted_insertionSort _ l
  have key : List.Pairwise (fun x y => f x < f y ∨ (f x = f y ∧ G x y))
      (l.insertionSort (fun a b => f a ≤ f b)) := by
    rw [List.pairwise_iff_get]
    intro i j hij
    have hle := List.pairwise_iff_get.mp hsorted i j hij
    rcases lt_or_eq_of_le hle with hlt | heq
    · exact Or.inl hlt
    · refine Or.inr ⟨heq, ?_⟩
      have hxy : (l.insertionSort (fun a b => f a ≤ f b)).get i
          ≠ (l.insertionSort (fun a b => f a ≤ f b)).get j :=
        fun he => absurd (hnd'.get_inj_iff.mp he) (Fin.ne_of_lt hij)
      have hxa : (l.insertionSort (fun a b => f a ≤ f b)).get i ∈ l :=
        hperm.subset (List.get_mem _ i.1 i.2)
      have hya : (l.insertionSort (fun a b => f a ≤ f b)).get j ∈ l :=
        hperm.subset (List.get_mem _ j.1 j.2)
      obtain ⟨ix, hix⟩ := List.get_of_mem hxa
      obtain ⟨iy, hiy⟩ := List.get_of_mem hya
      have hsub2 : [(l.insertionSort (fun a b => f a ≤ f b)).get i,
          (l.insertionSort (fun a b => f a ≤ f b)).get j].Sublist
          (l.insertionSort (fun a b => f a ≤ f b)) := by
        have hpw : List.Pairwise (fun p q : Fin (l.insertionSort
            (fun a b => f a ≤ f b)).length => (p : ℕ) < (q : ℕ)) [i, j] :=
          List.pairwise_pair.mpr hij
        have hms := List.map_get_sublist hpw
        simp only [List.map_cons, List.map_nil] at hms
        exact hms
      rcases lt_trichotomy ix iy with hlt' | heq' | hgt'
      · have := List.pairwise_iff_get.mp hg ix iy hlt'
        rwa [hix, hiy] at this
      · exact absurd (by rw [← hix, ← hiy, heq']) hxy
      · have hgyx := List.pairwise_iff_get.mp hg iy ix hgt'
        rw [hix, hiy] at hgyx
        have hsub_l : [(l.insertionSort (fun a b => f a ≤ f b)).get j,
            (l.insertionSort (fun a b => f a ≤ f b)).get i].Sublist l := by
          have hpw : List.Pairwise (fun p q : Fin l.length => (p : ℕ) < (q : ℕ)) [iy, ix] :=
            List.pairwise_pair.mpr hgt'
          have hms := List.map_get_sublist hpw
          simp only [List.map_cons, List.map_nil] at hms
          rw [hix, hiy] at hms
          exact hms
        have hsub_asc : [(l.insertionSort (fun a b => f a ≤ f b)).get j,
            (l.insertionSort (fun a b => f a ≤ f b)).get i].Sublist
            (l.insertionSort (fun a b => f a ≤ f b)) :=
          List.pair_sublist_insertionSort (le_of_eq heq.symm) hsub_l
        exact absurd (pair_sublist_antisymm hnd' hsub2 hsub_asc) hxy
  unfold sortDescBy
  rw [List.pairwise_reverse]
  exact key

lemma string_data_inj {a b : String} (h : a.data = b.data) : a = b := by
  cases a
  cases b
  exact congrArg String.mk h

lemma artistKeys_pairwise_lt (rows : List Session) :
    (artistKeys rows).Pairwise (fun a b : String => a < b) := by
  have hs : List.Pairwise (fun a b : String => a.data ≤ b.data) (artistKeys rows) := by
    haveI : IsTotal String (fun a b : String => a.data ≤ b.data) := ⟨fun a b => le_total _ _⟩
    haveI : IsTrans String (fun a b : String => a.data ≤ b.data) :=
      ⟨fun a b c hab hbc => le_trans hab hbc⟩
    exact List.sorted_insertionSort _ _
  have hnd : (artistKeys rows).Nodup :=
    (List.perm_insertionSort _ _).nodup_iff.mpr (List.nodup_dedup _)
  refine (hs.and hnd).imp ?_
  intro a b hab
  have hdne : a.data ≠ b.data := fun h => hab.2 (string_data_inj h)
  have hdlt : a.data < b.data := lt_of_le_of_ne hab.1 hdne
  rw [String.lt_iff_toList_lt]
  exact hdlt

lemma artistKeys_nodup (rows : List Session) : (artistKeys rows).Nodup :=
  (List.perm_insertionSort _ _).nodup_iff.mpr (List.nodup_dedup _)

/-- C7 counterexample: two artists with equal summed effective seconds;
the result lists `b` before `a` although the data source encountered `a`
first — the tie is not broken by encounter order (the `groupby`
pre-sorts keys alphabetically and the descending sort reverses an
ascending stable sort). -/
theorem top_artists_tie_not_encounter_order :
    (get_top_artists exTie 2).map ArtistRow.artistName = ["b", "a"]
    ∧ exTie.map Session.artistName = ["a", "b"]
    ∧ (get_top_artists exTie 2).map ArtistRow.artistName ≠ exTie.map Session.artistName
    ∧ (artistAgg exTie "a").total_seconds = (artistAgg exTie "b").total_seconds := by decide

/-- C7 amended: `top_artists(n)` has at most `n` rows, is sorted
descending by summed effective seconds with ties in descending
artist-name order (not encounter order), with `n` equal to the
distinct-artist count it lists every distinct artist exactly once, and
each returned row carries that artist's true effective-second sum and
session count. -/
theorem top_artists_spec (rows : List Session) (n : ℕ) :
    (get_top_artists rows n).length ≤ n
    ∧ (get_top_artists rows n).Pairwise
        (fun x y => y.total_seconds < x.total_seconds
          ∨ (y.total_seconds = x.total_seconds ∧ y.artistName < x.artistName))
    ∧ ((get_top_artists rows (uniqueArtists rows)).map ArtistRow.artistName).Perm
        (artistKeys rows)
    ∧ ((get_top_artists rows (uniqueArtists rows)).map ArtistRow.artistName).Nodup
    ∧ ∀ r ∈ get_top_artists rows n,
        r.total_seconds = sumEff (rows.filter (fun s => decide (s.artistName = r.artistName)))
        ∧ r.session_count
            = (rows.filter (fun s => decide (s.artistName = r.artistName))).length := by
  have hG : ((artistKeys rows).map (artistAgg rows)).Pairwise
      (fun x y : ArtistRow => x.artistName < y.artistName) := by
    rw [List.pairwise_map]
    exact artistKeys_pairwise_lt rows
  have hpw := sortDescBy_pairwise (fun r => r.total_seconds)
      (fun x y : ArtistRow => x.artistName < y.artistName) _ hG (fun x => lt_irrefl _)
  have hlen_keys : (artistKeys rows).length = uniqueArtists rows := by
    unfold artistKeys uniqueArtists
    rw [(List.perm_insertionSort _ _).length_eq]
    exact (List.card_toFinset _).symm
  have hperm_sort : (sortDescBy (fun r => r.total_seconds)
      ((artistKeys rows).map (artistAgg rows))).Perm
      ((artistKeys rows).map (artistAgg rows)) := by
    unfold sortDescBy
    exact (List.reverse_perm _).trans (List.perm_insertionSort _ _)
  have hlen_sort : (sortDescBy (fun r => r.total_seconds)
      ((artistKeys rows).map (artistAgg rows))).length = uniqueArtists rows := by
    rw [hperm_sort.length_eq, List.length_map, hlen_keys]
  have hcov : ((get_top_artists rows (uniqueArtists rows)).map ArtistRow.artistName).Perm
      (artistKeys rows) := by
    have htake : get_top_artists rows (uniqueArtists rows)
        = sortDescBy (fun r => r.total_seconds) ((artistKeys rows).map (artistAgg rows)) := by
      unfold get_top_artists
      exact List.take_of_length_le (by rw [hlen_sort])
    rw [htake]
    refine (hperm_sort.map ArtistRow.artistName).trans ?_
    rw [List.map_map]
    have hid : (ArtistRow.artistName ∘ artistAgg rows) = id := by
      funext a
      rfl
    rw [hid, List.map_id]
  refine ⟨List.length_take_le _ _, ?_, hcov, hcov.nodup_iff.mpr (artistKeys_nodup rows), ?_⟩
  · exact List.Pairwise.sublist (List.take_sublist _ _) hpw
  · intro r hr
    have h1 : r ∈ sortDescBy (fun r => r.total_seconds)
        ((artistKeys rows).map (artistAgg rows)) := List.mem_of_mem_take hr
    obtain ⟨a, _, rfl⟩ := List.mem_map.mp (hperm_sort.subset h1)
    exact ⟨rfl, rfl⟩
